import Mathlib

/-!
Verification development for the android-action-kernel repository.

The Python sources are shallowly embedded: pure functions become Lean
functions, Python strings become Lean `String` (with character-level work
on `List Char`), Python dictionaries with a fixed key set become
structures with `Option` fields, machine side effects (adb commands,
sleeps, process exit) become an explicit `Effect` value, and fallible
code returns `Option` or `Except`.

Library calls are modelled at their documented interface:
`xml.etree.ElementTree.fromstring` as a total recursive-descent parser
returning `Option XNode` (`none` models `ET.ParseError`), `json.loads`
as a total parser returning `Option JValue` (`none` models
`json.JSONDecodeError`; numbers are modelled as integers),
`re.search` of the fixed pattern for a single-level brace group as a
direct scan, and Python's `int` conversion as an optional sign followed
by digits.
-/

/-- Characters Python's `str.isspace`-style XML whitespace skipping treats as blank. -/
def isXmlWs (c : Char) : Bool :=
  c = ' ' || c = '\t' || c = '\n' || c = '\r'

/-- Drop leading XML whitespace. -/
def skipWs (l : List Char) : List Char :=
  l.dropWhile isXmlWs

/-- Value of a digit string, most significant digit first. -/
def digitsVal (l : List Char) : Nat :=
  l.foldl (fun a c => a * 10 + (c.toNat - 48)) 0

/-- Model of Python `int(token)` on a raw token: an optional sign followed by
one or more decimal digits; anything else raises `ValueError`, modelled as `none`. -/
def pyInt? : List Char → Option Int
  | [] => none
  | c :: rest =>
    if c = '-' then
      if rest ≠ [] ∧ rest.all Char.isDigit then some (-(digitsVal rest : Int)) else none
    else if c = '+' then
      if rest ≠ [] ∧ rest.all Char.isDigit then some ((digitsVal rest : Int)) else none
    else if (c :: rest).all Char.isDigit then some ((digitsVal (c :: rest) : Int)) else none

/-- Model of Python `s.replace("][", ",")`: scan left to right, replacing each
(non-overlapping) occurrence of the two-character pattern. -/
def replBB : List Char → List Char
  | [] => []
  | [c] => [c]
  | c1 :: c2 :: rest =>
    if c1 = ']' && c2 = '[' then ',' :: replBB rest
    else c1 :: replBB (c2 :: rest)

/-- Model of Python `s.split(sep)` for a one-character separator: the result is
always non-empty, and splitting the empty string yields one empty piece. -/
def splitOnCh (sep : Char) : List Char → List (List Char)
  | [] => [[]]
  | c :: rest =>
    if c = sep then [] :: splitOnCh sep rest
    else
      match splitOnCh sep rest with
      | t :: ts => (c :: t) :: ts
      | [] => [[c]]

/-- Convert every token with Python `int`, failing if any token fails. -/
def intTokens : List (List Char) → Option (List Int)
  | [] => some []
  | t :: ts =>
    match pyInt? t, intTokens ts with
    | some x, some xs => some (x :: xs)
    | _, _ => none

/-- Boolean substring test, modelling Python's `pat in s` on the character list. -/
def infixOfB (pat : List Char) : List Char → Bool
  | [] => pat.isEmpty
  | c :: rest => pat.isPrefixOf (c :: rest) || infixOfB pat rest

/-- An accessibility-tree node: the attribute dictionary (keys are unique, as
`ElementTree` rejects duplicate attributes) and the child nodes in document order. -/
inductive XNode where
  | mk (attrib : List (String × String)) (children : List XNode)

/-- Attribute list of a node. -/
def XNode.attrib : XNode → List (String × String)
  | .mk a _ => a

/-- Children of a node, in document order. -/
def XNode.children : XNode → List XNode
  | .mk _ c => c

/-- First-match attribute lookup, modelling `node.attrib.get(key)`. -/
def getAttr (n : XNode) (key : String) : Option String :=
  go n.attrib
where
  go : List (String × String) → Option String
    | [] => none
    | (k, v) :: rest => if k == key then some v else go rest

mutual

/-- Document-order (depth-first, pre-order) node sequence, modelling
`Element.iter()`: the node itself first, then each subtree in order. -/
def nodePreorder : XNode → List XNode
  | .mk a cs => .mk a cs :: nodePreorderList cs

/-- Concatenated pre-order sequences of a list of sibling subtrees. -/
def nodePreorderList : List XNode → List XNode
  | [] => []
  | n :: ns => nodePreorder n ++ nodePreorderList ns

end

/-- Membership of a node in a tree: the root itself, or inside some child. -/
inductive InTree : XNode → XNode → Prop
  | refl (n : XNode) : InTree n n
  | child {n c r : XNode} : c ∈ r.children → InTree n c → InTree n r

/-- Characters allowed in an XML element or attribute name. -/
def isNameChar (c : Char) : Bool :=
  c.isAlphanum || c = '_' || c = '-' || c = '.' || c = ':'

/-- Read a run of name characters. -/
def takeName (l : List Char) : List Char × List Char :=
  (l.takeWhile isNameChar, l.dropWhile isNameChar)

/-- Read a double-quoted attribute value up to the closing quote; a stray `<`
or end of input is malformed. -/
def takeAttrVal : List Char → Option (List Char × List Char)
  | [] => none
  | c :: rest =>
    if c = '"' then some ([], rest)
    else if c = '<' then none
    else
      match takeAttrVal rest with
      | some (v, r) => some (c :: v, r)
      | none => none

/-- Read a sequence of `name="value"` attributes. -/
def parseAttrs : Nat → List Char → Option (List (String × String) × List Char)
  | 0, _ => none
  | fuel + 1, l =>
    match skipWs l with
    | [] => none
    | c :: rest =>
      if isNameChar c then
        let nm := takeName (c :: rest)
        match skipWs nm.2 with
        | '=' :: r2 =>
          match skipWs r2 with
          | '"' :: r3 =>
            match takeAttrVal r3 with
            | some (v, r4) =>
              match parseAttrs fuel r4 with
              | some (attrs, r5) => some ((⟨nm.1⟩, ⟨v⟩) :: attrs, r5)
              | none => none
            | none => none
          | _ => none
        | _ => none
      else some ([], c :: rest)

mutual

/-- Read one element: `<name attrs/>` or `<name attrs> children </name>`. -/
def parseElement : Nat → List Char → Option (XNode × List Char)
  | 0, _ => none
  | fuel + 1, l =>
    match l with
    | '<' :: r1 =>
      let nm := takeName r1
      if nm.1 = [] then none
      else
        match parseAttrs fuel nm.2 with
        | none => none
        | some (attrs, r3) =>
          match r3 with
          | '/' :: '>' :: r4 => some (XNode.mk attrs [], r4)
          | '>' :: r4 =>
            match parseChildren fuel r4 with
            | none => none
            | some (cs, r5) =>
              match r5 with
              | '<' :: '/' :: r6 =>
                let nm2 := takeName r6
                if nm2.1 = nm.1 then
                  match skipWs nm2.2 with
                  | '>' :: r8 => some (XNode.mk attrs cs, r8)
                  | _ => none
                else none
              | _ => none
          | _ => none
    | _ => none

/-- Read the children of an element, skipping interleaved text content, up to
(but not consuming) the closing tag. -/
def parseChildren : Nat → List Char → Option (List XNode × List Char)
  | 0, _ => none
  | fuel + 1, l =>
    match l.dropWhile (fun c => !(c == '<')) with
    | '<' :: '/' :: r => some ([], '<' :: '/' :: r)
    | '<' :: r =>
      match parseElement fuel ('<' :: r) with
      | none => none
      | some (n, rest) =>
        match parseChildren fuel rest with
        | some (cs, r2) => some (n :: cs, r2)
        | none => none
    | _ => none

end

/-- Skip past a leading `<?xml ... ?>` declaration when present. -/
def dropPast : List Char → Option (List Char)
  | [] => none
  | '?' :: '>' :: r => some r
  | _ :: r => dropPast r

/-- Skip whitespace and an optional XML declaration before the root element. -/
def skipProlog (l : List Char) : Option (List Char) :=
  match skipWs l with
  | '<' :: '?' :: rest => dropPast rest
  | l2 => some l2

/-- Model of `xml.etree.ElementTree.fromstring`: parse one root element with
nothing but whitespace around it; `none` models a raised `ET.ParseError`. -/
def ET_fromstring (s : String) : Option XNode :=
  match skipProlog s.data with
  | none => none
  | some l =>
    match parseElement (2 * s.length + 4) (skipWs l) with
    | none => none
    | some (root, rest) => if skipWs rest = [] then some root else none

/-- The derived interactive-element record built by the extractor. -/
structure InteractiveElement where
  id : String
  text : String
  type : String
  bounds : String
  center : Int × Int
  clickable : Bool
  editable : Bool
  action : String
deriving DecidableEq, Repr

/-- Embedding of `is_clickable`: the `clickable` attribute is exactly `"true"`. -/
def isClickable (n : XNode) : Bool :=
  getAttr n "clickable" == some "true"

/-- Embedding of `element_class`: the `class` attribute, defaulting to empty. -/
def elementClass (n : XNode) : String :=
  (getAttr n "class").getD ""

/-- Embedding of `is_editable`: class-name substring heuristic or an explicit
`editable="true"` attribute. -/
def isEditable (n : XNode) : Bool :=
  infixOfB "EditText".data (elementClass n).data ||
  infixOfB "AutoCompleteTextView".data (elementClass n).data ||
  (getAttr n "editable" == some "true")

/-- The node's `text` attribute, defaulting to empty. -/
def textAttr (n : XNode) : String :=
  (getAttr n "text").getD ""

/-- The node's `content-desc` attribute, defaulting to empty. -/
def descAttr (n : XNode) : String :=
  (getAttr n "content-desc").getD ""

/-- The qualification filter of the extractor: interactive or informative.
A node failing this test is skipped with no output. -/
def qualifies (n : XNode) : Bool :=
  isClickable n || isEditable n || !(textAttr n == "") || !(descAttr n == "")

/-- Embedding of the bounds pipeline
`bounds.replace("][", ",").replace("[", "").replace("]", "").split(",")`
followed by `x1, y1, x2, y2 = map(int, coords)`; any `ValueError` in the
conversion or the unpack is modelled as `none`. -/
def parseBounds (b : String) : Option (Int × Int × Int × Int) :=
  match intTokens (splitOnCh ','
      (((replBB b.data).filter (fun c => !(c == '['))).filter (fun c => !(c == ']')))) with
  | some [x1, y1, x2, y2] => some (x1, y1, x2, y2)
  | _ => none

/-- Last `.`-separated segment of a class name, modelling `s.split(".")[-1]`. -/
def lastDotToken (s : String) : String :=
  ⟨(splitOnCh '.' s.data).getLastD []⟩

/-- The element record the loop body appends for a node whose bounds parsed
to the four corner coordinates. -/
def buildElement (n : XNode) (b : String) (x1 y1 x2 y2 : Int) : InteractiveElement :=
  { id := (getAttr n "resource-id").getD ""
    text := if textAttr n == "" then descAttr n else textAttr n
    type := lastDotToken (elementClass n)
    bounds := b
    center := ((x1 + x2).fdiv 2, (y1 + y2).fdiv 2)
    clickable := isClickable n
    editable := isEditable n
    action := if isEditable n then "type" else if isClickable n then "tap" else "read" }

/-- Per-node step of the extractor loop: `none` when the node is skipped
(not qualifying, missing or falsy bounds, or a bounds parse failure caught
by the `except` clause), otherwise the element record appended. -/
def processNode (n : XNode) : Option InteractiveElement :=
  if !(qualifies n) then none
  else
    match getAttr n "bounds" with
    | none => none
    | some b =>
      if b == "" then none
      else
        match parseBounds b with
        | none => none
        | some (x1, y1, x2, y2) => some (buildElement n b x1 y1 x2 y2)

/-- A node whose bounds cannot be used: the attribute is missing, falsy
(empty), or fails the parse pipeline. -/
def boundsBroken (n : XNode) : Bool :=
  match getAttr n "bounds" with
  | none => true
  | some b => b == "" || (parseBounds b).isNone

/-- The extractor's `for node in root.iter()` loop over a node sequence,
appending the processed element or continuing on a skip. -/
def extractLoop : List XNode → List InteractiveElement
  | [] => []
  | n :: rest =>
    match processNode n with
    | some e => e :: extractLoop rest
    | none => extractLoop rest

/-- Embedding of `sanitizer.get_interactive_elements`: parse the document,
returning the empty list on a parse error, else run the loop over the
document-order node sequence. -/
def get_interactive_elements (xml_content : String) : List InteractiveElement :=
  match ET_fromstring xml_content with
  | none => []
  | some root => extractLoop (nodePreorder root)

/-- The extractor's only side effect: the parse-failure warning is printed
exactly when the document fails to parse. -/
def sanitizer_parse_warning (xml_content : String) : Bool :=
  (ET_fromstring xml_content).isNone

/-- A JSON value. Numbers are modelled as integers: the repository's action
vocabulary only carries integer coordinates, and floating point is out of
scope for this embedding. -/
inductive JValue where
  | jnull
  | jbool (b : Bool)
  | jnum (n : Int)
  | jstr (s : String)
  | jarr (elems : List JValue)
  | jobj (fields : List (String × JValue))

/-- JSON insignificant whitespace. -/
def isJsonWs (c : Char) : Bool :=
  c = ' ' || c = '\t' || c = '\n' || c = '\r'

/-- Drop leading JSON whitespace. -/
def skipJWs (l : List Char) : List Char :=
  l.dropWhile isJsonWs

/-- Decode one escape character of a JSON string (the `\\uXXXX` form is not
modelled and is rejected). -/
def escMap (c : Char) : Option Char :=
  if c = '"' then some '"'
  else if c = '\\' then some '\\'
  else if c = '/' then some '/'
  else if c = 'n' then some '\n'
  else if c = 't' then some '\t'
  else if c = 'r' then some '\r'
  else if c = 'b' then some (Char.ofNat 8)
  else if c = 'f' then some (Char.ofNat 12)
  else none

/-- Read the remainder of a JSON string after the opening quote, returning the
decoded characters and the input after the closing quote. -/
def parseJString : Nat → List Char → Option (List Char × List Char)
  | 0, _ => none
  | _ + 1, [] => none
  | fuel + 1, c :: rest =>
    if c = '"' then some ([], rest)
    else if c = '\\' then
      match rest with
      | [] => none
      | e :: rest2 =>
        match escMap e with
        | some d =>
          match parseJString fuel rest2 with
          | some (s, r) => some (d :: s, r)
          | none => none
        | none => none
    else if c.toNat < 32 then none
    else
      match parseJString fuel rest with
      | some (s, r) => some (c :: s, r)
      | none => none

/-- Read a JSON integer literal: optional minus sign, then digits with no
useless leading zero, exactly as the RFC grammar restricted to integers. -/
def parseJNumber (l : List Char) : Option (Int × List Char) :=
  match l with
  | '-' :: rest =>
    let ds := rest.takeWhile Char.isDigit
    if ds ≠ [] ∧ (ds.head? = some '0' → ds.length = 1) then
      some (-(digitsVal ds : Int), rest.dropWhile Char.isDigit)
    else none
  | _ =>
    let ds := l.takeWhile Char.isDigit
    if ds ≠ [] ∧ (ds.head? = some '0' → ds.length = 1) then
      some ((digitsVal ds : Int), l.dropWhile Char.isDigit)
    else none

mutual

/-- Read one JSON value after optional leading whitespace. -/
def parseJValue : Nat → List Char → Option (JValue × List Char)
  | 0, _ => none
  | fuel + 1, l =>
    match skipJWs l with
    | [] => none
    | c :: rest =>
      if c = '{' then
        match skipJWs rest with
        | '}' :: r => some (.jobj [], r)
        | r2 =>
          match parseJFields fuel r2 with
          | some (fs, r) => some (.jobj fs, r)
          | none => none
      else if c = '[' then
        match skipJWs rest with
        | ']' :: r => some (.jarr [], r)
        | r2 =>
          match parseJItems fuel r2 with
          | some (xs, r) => some (.jarr xs, r)
          | none => none
      else if c = '"' then
        match parseJString fuel rest with
        | some (s, r) => some (.jstr ⟨s⟩, r)
        | none => none
      else if c = 't' then
        match rest with
        | 'r' :: 'u' :: 'e' :: r => some (.jbool true, r)
        | _ => none
      else if c = 'f' then
        match rest with
        | 'a' :: 'l' :: 's' :: 'e' :: r => some (.jbool false, r)
        | _ => none
      else if c = 'n' then
        match rest with
        | 'u' :: 'l' :: 'l' :: r => some (.jnull, r)
        | _ => none
      else if c = '-' || c.isDigit then
        match parseJNumber (c :: rest) with
        | some (v, r) => some (.jnum v, r)
        | none => none
      else none

/-- Read one or more comma-separated `"key": value` pairs and the closing brace. -/
def parseJFields : Nat → List Char → Option (List (String × JValue) × List Char)
  | 0, _ => none
  | fuel + 1, l =>
    match skipJWs l with
    | '"' :: r1 =>
      match parseJString fuel r1 with
      | none => none
      | some (k, r2) =>
        match skipJWs r2 with
        | ':' :: r3 =>
          match parseJValue fuel r3 with
          | none => none
          | some (v, r4) =>
            match skipJWs r4 with
            | ',' :: r5 =>
              match parseJFields fuel r5 with
              | some (fs, r6) => some ((⟨k⟩, v) :: fs, r6)
              | none => none
            | '}' :: r5 => some ([(⟨k⟩, v)], r5)
            | _ => none
        | _ => none
    | _ => none

/-- Read one or more comma-separated array items and the closing bracket. -/
def parseJItems : Nat → List Char → Option (List JValue × List Char)
  | 0, _ => none
  | fuel + 1, l =>
    match parseJValue fuel l with
    | none => none
    | some (v, r) =>
      match skipJWs r with
      | ',' :: r2 =>
        match parseJItems fuel r2 with
        | some (xs, r3) => some (v :: xs, r3)
        | none => none
      | ']' :: r2 => some ([v], r2)
      | _ => none

end

/-- Model of Python `json.loads`: one JSON value with nothing but whitespace
around it; `none` models a raised `json.JSONDecodeError`. -/
def json_loads (s : String) : Option JValue :=
  match parseJValue (s.length + 2) s.data with
  | none => none
  | some (v, rest) => if skipJWs rest = [] then some v else none

/-- Scanner for the first match of the pattern of one brace-delimited group
with no nested brace, as used by the Bedrock provider. The accumulator holds
the reversed characters since the most recent unmatched opening brace. -/
def fbAux : List Char → Option (List Char) → Option (List Char)
  | [], _ => none
  | c :: rest, buf =>
    if c = '{' then fbAux rest (some ['{'])
    else if c = '}' then
      match buf with
      | some b => some (b.reverse ++ ['}'])
      | none => fbAux rest none
    else
      match buf with
      | some b => fbAux rest (some (c :: b))
      | none => fbAux rest none

/-- Model of `re.search` for the fixed single-level brace-group pattern:
the leftmost-ending brace-delimited substring with no nested brace. -/
def firstBrace (l : List Char) : Option (List Char) :=
  fbAux l none

/-- The safe default action returned when no brace group is found at all. -/
def waitFallback : JValue :=
  .jobj [("action", .jstr "wait"), ("reason", .jstr "Failed to parse response, waiting")]

/-- Model of Python slicing `text[:200]`: at most the first 200 characters. -/
def pySlice200 (s : String) : String :=
  ⟨s.data.take 200⟩

/-- Embedding of `BedrockProvider._parse_json_response`: direct parse first;
on failure search for the first single-level brace group and parse it, any
error of that second parse escaping uncaught (`Except.error`); when no group
is found, print a truncated warning and return the wait fallback. The second
component is the printed warning, if any. -/
def parse_json_response (text : String) : Except Unit JValue × Option String :=
  match json_loads text with
  | some v => (.ok v, none)
  | none =>
    match firstBrace text.data with
    | some sub =>
      match json_loads ⟨sub⟩ with
      | some v => (.ok v, none)
      | none => (.error (), none)
    | none =>
      (.ok waitFallback, some ("⚠️ Could not parse LLM response: " ++ pySlice200 text))

/-- Embedding of the response parsing done inline by
`OpenAIProvider.get_decision`: a bare `json.loads` of the message content,
with no fallback of any kind; `Except.error` models the escaping exception. -/
def openai_parse_response (text : String) : Except Unit JValue :=
  match json_loads text with
  | some v => .ok v
  | none => .error ()

/-- One entry of the action-history list: a dictionary with these optional
keys, read through `dict.get` with the defaults of the source. -/
structure HistEntry where
  action : Option String
  text : Option String
  reason : Option String
  coordinates : Option (List Int)
deriving DecidableEq, Repr

/-- Python `repr` of a list of integers, as an f-string renders it. -/
def pyIntListRepr (xs : List Int) : String :=
  "[" ++ String.intercalate ", " (xs.map toString) ++ "]"

/-- The line rendered for the history entry at zero-based index `i`. -/
def historyLine (i : Nat) (a : HistEntry) : String :=
  let actionType := a.action.getD "unknown"
  let reason := a.reason.getD "N/A"
  if actionType == "type" then
    "Step " ++ toString (i + 1) ++ ": typed \"" ++ a.text.getD "" ++ "\" - " ++ reason
  else if actionType == "tap" then
    "Step " ++ toString (i + 1) ++ ": tapped " ++ pyIntListRepr (a.coordinates.getD []) ++ " - " ++ reason
  else
    "Step " ++ toString (i + 1) ++ ": " ++ actionType ++ " - " ++ reason

/-- The `enumerate` loop of the formatter, carrying the running index. -/
def historyLines (i : Nat) : List HistEntry → List String
  | [] => []
  | a :: rest => historyLine i a :: historyLines (i + 1) rest

/-- Embedding of `format_action_history`: empty history yields the empty
string, otherwise a header plus the newline-joined, 1-indexed lines. -/
def format_action_history (h : List HistEntry) : String :=
  if h.isEmpty then ""
  else "\n\nPREVIOUS_ACTIONS:\n" ++ String.intercalate "\n" (historyLines 0 h)

/-- `KEYCODE_ENTER` from `constants.py`. -/
def KEYCODE_ENTER : String := "66"

/-- `KEYCODE_HOME` from `constants.py`. -/
def KEYCODE_HOME : String := "KEYCODE_HOME"

/-- `KEYCODE_BACK` from `constants.py`. -/
def KEYCODE_BACK : String := "KEYCODE_BACK"

/-- `SCREEN_CENTER_X` from `constants.py`. -/
def SCREEN_CENTER_X : Int := 540

/-- `SCREEN_CENTER_Y` from `constants.py`. -/
def SCREEN_CENTER_Y : Int := 1200

/-- `SWIPE_COORDS` from `constants.py`: direction to start and end points. -/
def SWIPE_COORDS : List (String × (Int × Int × Int × Int)) :=
  [("up", (SCREEN_CENTER_X, 1500, SCREEN_CENTER_X, 500)),
   ("down", (SCREEN_CENTER_X, 500, SCREEN_CENTER_X, 1500)),
   ("left", (800, SCREEN_CENTER_Y, 200, SCREEN_CENTER_Y)),
   ("right", (200, SCREEN_CENTER_Y, 800, SCREEN_CENTER_Y))]

/-- `SWIPE_DURATION_MS` from `constants.py`. -/
def SWIPE_DURATION_MS : String := "300"

/-- The decided action as the dispatcher reads it: a dictionary with these
optional keys, read through `dict.get`. -/
structure ActionDict where
  action : Option String
  coordinates : Option (List Int)
  text : Option String
  direction : Option String
  reason : Option String
deriving DecidableEq, Repr

/-- What one dispatch call does to the outside world: an adb command with its
argument list, a sleep, a process exit, a logged unknown-action warning, or
an escaping exception. -/
inductive Effect where
  | adb (args : List String)
  | sleep (seconds : Nat)
  | exitProgram
  | warnUnknown (act : Option String)
  | raiseErr
deriving DecidableEq, Repr

/-- Worker for `pyReplace` on character lists, for a non-empty pattern
`p :: ps`: scan left to right, replacing non-overlapping occurrences. The
fuel is at least the list length, so it never runs out. -/
def replaceL (p : Char) (ps : List Char) (repl : List Char) : Nat → List Char → List Char
  | 0, l => l
  | _ + 1, [] => []
  | fuel + 1, c :: rest =>
    if (p :: ps).isPrefixOf (c :: rest) then repl ++ replaceL p ps repl fuel (rest.drop ps.length)
    else c :: replaceL p ps repl fuel rest

/-- Model of Python `s.replace(pat, repl)` for a non-empty pattern (the empty
pattern never occurs in the source). -/
def pyReplace (s pat repl : String) : String :=
  match pat.data with
  | [] => s
  | p :: ps => ⟨replaceL p ps repl.data s.data.length s.data⟩

/-- Embedding of `_execute_tap`: unpack the coordinates, defaulting to
`[0, 0]` when the key is absent; a value that is not a pair makes the unpack
raise, modelled as `raiseErr`. -/
def execute_tap (a : ActionDict) : Effect :=
  match a.coordinates.getD [0, 0] with
  | [x, y] => .adb ["shell", "input", "tap", toString x, toString y]
  | _ => .raiseErr

/-- Embedding of `_execute_type`: spaces are escaped to the adb placeholder
before dispatch. -/
def execute_type (a : ActionDict) : Effect :=
  .adb ["shell", "input", "text", pyReplace (a.text.getD "") " " "%s"]

/-- Embedding of `_execute_swipe`: unknown directions fall back to the `"up"`
preset. -/
def execute_swipe (a : ActionDict) : Effect :=
  let direction := a.direction.getD "up"
  let coords := (SWIPE_COORDS.lookup direction).getD (SCREEN_CENTER_X, 1500, SCREEN_CENTER_X, 500)
  .adb ["shell", "input", "swipe", toString coords.1, toString coords.2.1,
        toString coords.2.2.1, toString coords.2.2.2, SWIPE_DURATION_MS]

/-- Embedding of `execute_action`: dispatch on the `action` key; an
unrecognized or missing kind only logs a warning. -/
def execute_action (a : ActionDict) : Effect :=
  if a.action == some "tap" then execute_tap a
  else if a.action == some "type" then execute_type a
  else if a.action == some "enter" then .adb ["shell", "input", "keyevent", KEYCODE_ENTER]
  else if a.action == some "swipe" then execute_swipe a
  else if a.action == some "home" then .adb ["shell", "input", "keyevent", KEYCODE_HOME]
  else if a.action == some "back" then .adb ["shell", "input", "keyevent", KEYCODE_BACK]
  else if a.action == some "wait" then .sleep 2
  else if a.action == some "done" then .exitProgram
  else .warnUnknown a.action

/-! ## Supporting lemmas about the extractor -/

/-- The loop over the node sequence is exactly a `filterMap` of the per-node step. -/
theorem extractLoop_eq_filterMap (l : List XNode) :
    extractLoop l = l.filterMap processNode := by
  induction l with
  | nil => rfl
  | cons n rest ih =>
    cases h : processNode n <;> simp [extractLoop, List.filterMap_cons, h, ih]

/-- Exact characterization of a successful per-node step. -/
theorem processNode_eq_some {n : XNode} {e : InteractiveElement} :
    processNode n = some e ↔
      qualifies n = true ∧
      ∃ b x1 y1 x2 y2, getAttr n "bounds" = some b ∧ (b == "") = false ∧
        parseBounds b = some (x1, y1, x2, y2) ∧ e = buildElement n b x1 y1 x2 y2 := by
  constructor
  · intro h
    unfold processNode at h
    split at h
    · simp at h
    next hq =>
      have hq' : qualifies n = true := by
        cases hqv : qualifies n
        · rw [hqv] at hq; simp at hq
        · rfl
      split at h
      · simp at h
      next b hb =>
        split at h
        · simp at h
        next hbe =>
          split at h
          · simp at h
          next x1 y1 x2 y2 hpb =>
            exact ⟨hq', b, x1, y1, x2, y2, hb, by simpa using hbe, hpb,
              (Option.some.inj h).symm⟩
  · rintro ⟨hq, b, x1, y1, x2, y2, hb, hbe, hpb, rfl⟩
    simp [processNode, hq, hb, hbe, hpb]

/-! ## Claims about the element extractor -/

/-- C2: for every input document, an element appears in the extractor's output
only if its source node passed the qualification filter (clickable, editable,
non-empty text, or non-empty content-description); consequently every output
element is clickable, editable, or carries a non-empty label (its text with
content-description fallback), so a node with none of the four properties
never contributes an element, regardless of its other attributes. -/
theorem extractor_filter_invariant (doc : String) (e : InteractiveElement)
    (he : e ∈ get_interactive_elements doc) :
    e.clickable = true ∨ e.editable = true ∨ e.text ≠ "" := by
  cases hp : ET_fromstring doc with
  | none =>
    have : get_interactive_elements doc = [] := by
      unfold get_interactive_elements; rw [hp]
    rw [this] at he; simp at he
  | some root =>
    have hge : get_interactive_elements doc = extractLoop (nodePreorder root) := by
      unfold get_interactive_elements; rw [hp]
    rw [hge, extractLoop_eq_filterMap] at he
    obtain ⟨n, -, hn⟩ := List.mem_filterMap.mp he
    obtain ⟨hq, b, x1, y1, x2, y2, -, -, -, rfl⟩ := processNode_eq_some.mp hn
    simp only [qualifies, Bool.or_eq_true] at hq
    rcases hq with ((hc | hed) | ht) | hd
    · exact Or.inl hc
    · exact Or.inr (Or.inl hed)
    · refine Or.inr (Or.inr ?_)
      have ht' : (textAttr n == "") = false := by simpa using ht
      simpa [buildElement, ht'] using beq_eq_false_iff_ne.mp ht'
    · refine Or.inr (Or.inr ?_)
      have hd' : descAttr n ≠ "" := by
        have : (descAttr n == "") = false := by simpa using hd
        exact beq_eq_false_iff_ne.mp this
      cases htx : (textAttr n == "") with
      | true => simpa [buildElement, htx] using hd'
      | false =>
        simpa [buildElement, htx] using beq_eq_false_iff_ne.mp htx

/-- C2 witness: a concrete document with one clickable node, whose extracted
element satisfies the invariant. -/
theorem extractor_filter_invariant_witness :
    ({ id := "", text := "", type := "", bounds := "[100,200][300,400]",
       center := (200, 300), clickable := true, editable := false,
       action := "tap" } : InteractiveElement).clickable = true ∨
    ({ id := "", text := "", type := "", bounds := "[100,200][300,400]",
       center := (200, 300), clickable := true, editable := false,
       action := "tap" } : InteractiveElement).editable = true ∨
    ({ id := "", text := "", type := "", bounds := "[100,200][300,400]",
       center := (200, 300), clickable := true, editable := false,
       action := "tap" } : InteractiveElement).text ≠ "" :=
  extractor_filter_invariant
    "<hierarchy><node clickable=\"true\" bounds=\"[100,200][300,400]\"/></hierarchy>"
    _ (by decide)

/-- C4: for every extracted element, the suggested action is "type" whenever
the node is editable (even if also clickable), "tap" when clickable but not
editable, "read" when neither, and is always one of these three strings. -/
theorem suggested_action_priority (n : XNode) (e : InteractiveElement)
    (h : processNode n = some e) :
    (isEditable n = true → e.action = "type") ∧
    (isEditable n = false → isClickable n = true → e.action = "tap") ∧
    (isEditable n = false → isClickable n = false → e.action = "read") ∧
    (e.action = "type" ∨ e.action = "tap" ∨ e.action = "read") := by
  obtain ⟨-, b, x1, y1, x2, y2, -, -, -, rfl⟩ := processNode_eq_some.mp h
  cases hed : isEditable n <;> cases hcl : isClickable n <;>
    simp [buildElement, hed, hcl]

/-- C4 witness: a node that is both editable and clickable is suggested the
"type" action. -/
theorem suggested_action_priority_witness :
    (isEditable (XNode.mk [("class", "android.widget.EditText"),
        ("clickable", "true"), ("bounds", "[0,0][2,2]")] []) = true →
      ({ id := "", text := "", type := "EditText", bounds := "[0,0][2,2]",
         center := (1, 1), clickable := true, editable := true,
         action := "type" } : InteractiveElement).action = "type") ∧
    (isEditable (XNode.mk [("class", "android.widget.EditText"),
        ("clickable", "true"), ("bounds", "[0,0][2,2]")] []) = false →
      isClickable (XNode.mk [("class", "android.widget.EditText"),
        ("clickable", "true"), ("bounds", "[0,0][2,2]")] []) = true →
      ({ id := "", text := "", type := "EditText", bounds := "[0,0][2,2]",
         center := (1, 1), clickable := true, editable := true,
         action := "type" } : InteractiveElement).action = "tap") ∧
    (isEditable (XNode.mk [("class", "android.widget.EditText"),
        ("clickable", "true"), ("bounds", "[0,0][2,2]")] []) = false →
      isClickable (XNode.mk [("class", "android.widget.EditText"),
        ("clickable", "true"), ("bounds", "[0,0][2,2]")] []) = false →
      ({ id := "", text := "", type := "EditText", bounds := "[0,0][2,2]",
         center := (1, 1), clickable := true, editable := true,
         action := "type" } : InteractiveElement).action = "read") ∧
    (({ id := "", text := "", type := "EditText", bounds := "[0,0][2,2]",
        center := (1, 1), clickable := true, editable := true,
        action := "type" } : InteractiveElement).action = "type" ∨
     ({ id := "", text := "", type := "EditText", bounds := "[0,0][2,2]",
        center := (1, 1), clickable := true, editable := true,
        action := "type" } : InteractiveElement).action = "tap" ∨
     ({ id := "", text := "", type := "EditText", bounds := "[0,0][2,2]",
        center := (1, 1), clickable := true, editable := true,
        action := "type" } : InteractiveElement).action = "read") :=
  suggested_action_priority _ _ (by decide)

/-! ## Round-trip lemmas for the bounds pipeline -/

/-- A decimal digit is not a bracket or a comma. -/
theorem digit_not_special {c : Char} (h : c.isDigit = true) :
    c ≠ '[' ∧ c ≠ ']' ∧ c ≠ ',' := by
  refine ⟨?_, ?_, ?_⟩ <;> rintro rfl <;> exact absurd h (by decide)

/-- A token accepted by the integer conversion is non-empty and consists of
signs and digits only. -/
theorem pyInt?_chars {s : List Char} {x : Int} (h : pyInt? s = some x) :
    s ≠ [] ∧ ∀ c ∈ s, c = '-' ∨ c = '+' ∨ c.isDigit = true := by
  cases s with
  | nil => simp [pyInt?] at h
  | cons c rest =>
    refine ⟨by simp, ?_⟩
    simp only [pyInt?] at h
    by_cases h1 : c = '-'
    · rw [if_pos h1] at h
      split at h
      next hcond =>
        intro d hd
        rcases List.mem_cons.mp hd with rfl | hdm
        · exact Or.inl h1
        · exact Or.inr (Or.inr (List.all_eq_true.mp hcond.2 d hdm))
      next => simp at h
    · rw [if_neg h1] at h
      by_cases h2 : c = '+'
      · rw [if_pos h2] at h
        split at h
        next hcond =>
          intro d hd
          rcases List.mem_cons.mp hd with rfl | hdm
          · exact Or.inr (Or.inl h2)
          · exact Or.inr (Or.inr (List.all_eq_true.mp hcond.2 d hdm))
        next => simp at h
      · rw [if_neg h2] at h
        split at h
        next hcond =>
          intro d hd
          exact Or.inr (Or.inr (List.all_eq_true.mp hcond d hd))
        next => simp at h

/-- A token accepted by the integer conversion contains no bracket or comma. -/
theorem pyInt?_no_special {s : List Char} {x : Int} (h : pyInt? s = some x) :
    ∀ c ∈ s, c ≠ '[' ∧ c ≠ ']' ∧ c ≠ ',' := by
  intro c hc
  rcases (pyInt?_chars h).2 c hc with rfl | rfl | hd
  · exact ⟨by decide, by decide, by decide⟩
  · exact ⟨by decide, by decide, by decide⟩
  · exact digit_not_special hd

/-- The bracket-pair replacement passes over a character other than `]`. -/
theorem replBB_cons_ne_rb {c : Char} (hc : c ≠ ']') (l : List Char) :
    replBB (c :: l) = c :: replBB l := by
  cases l with
  | nil => rfl
  | cons c2 rest => simp [replBB, hc]

/-- The bracket-pair replacement passes over a block with no `]`. -/
theorem replBB_append_of_ne_rb {l : List Char} (hl : ∀ c ∈ l, c ≠ ']')
    (r : List Char) : replBB (l ++ r) = l ++ replBB r := by
  induction l with
  | nil => simp
  | cons c l ih =>
    rw [List.cons_append, replBB_cons_ne_rb (hl c (List.mem_cons_self c l)),
      ih (fun d hd => hl d (List.mem_cons_of_mem c hd))]
    rfl

/-- The bracket-pair replacement rewrites one `][` occurrence to a comma. -/
theorem replBB_rb_lb (r : List Char) : replBB (']' :: '[' :: r) = ',' :: replBB r := by
  simp [replBB]

/-- Filtering away a character absent from the list is the identity. -/
theorem filter_ne_id {ch : Char} {s : List Char} (h : ∀ c ∈ s, c ≠ ch) :
    s.filter (fun c => !(c == ch)) = s :=
  List.filter_eq_self.mpr (fun c hc => by simp [h c hc])

/-- Splitting a separator-free list yields that one piece. -/
theorem splitOnCh_no_sep {sep : Char} {s : List Char} (h : ∀ c ∈ s, c ≠ sep) :
    splitOnCh sep s = [s] := by
  induction s with
  | nil => rfl
  | cons c rest ih =>
    have hc : c ≠ sep := h c (List.mem_cons_self c rest)
    simp [splitOnCh, hc, ih (fun d hd => h d (List.mem_cons_of_mem c hd))]

/-- Splitting peels off a separator-free piece before a separator. -/
theorem splitOnCh_append {sep : Char} {s : List Char} (h : ∀ c ∈ s, c ≠ sep)
    (r : List Char) : splitOnCh sep (s ++ sep :: r) = s :: splitOnCh sep r := by
  induction s with
  | nil => simp [splitOnCh]
  | cons c rest ih =>
    have hc : c ≠ sep := h c (List.mem_cons_self c rest)
    have ih' := ih (fun d hd => h d (List.mem_cons_of_mem c hd))
    simp [splitOnCh, hc, ih']

/-- The full bounds pipeline recovers the four integers from a well-formed
rectangle string whose four tokens convert as integers. -/
theorem parseBounds_shape {b : String} {s1 s2 s3 s4 : List Char} {x1 y1 x2 y2 : Int}
    (hb : b.data =
      '[' :: (s1 ++ (',' :: (s2 ++ (']' :: ('[' :: (s3 ++ (',' :: (s4 ++ [']'])))))))))
    (h1 : pyInt? s1 = some x1) (h2 : pyInt? s2 = some y1)
    (h3 : pyInt? s3 = some x2) (h4 : pyInt? s4 = some y2) :
    parseBounds b = some (x1, y1, x2, y2) := by
  have n1 := pyInt?_no_special h1
  have n2 := pyInt?_no_special h2
  have n3 := pyInt?_no_special h3
  have n4 := pyInt?_no_special h4
  have e1 : replBB b.data =
      '[' :: (s1 ++ (',' :: (s2 ++ (',' :: (s3 ++ (',' :: (s4 ++ [']']))))))) := by
    rw [hb, replBB_cons_ne_rb (by decide),
      replBB_append_of_ne_rb (fun c hc => (n1 c hc).2.1),
      replBB_cons_ne_rb (by decide),
      replBB_append_of_ne_rb (fun c hc => (n2 c hc).2.1),
      replBB_rb_lb,
      replBB_append_of_ne_rb (fun c hc => (n3 c hc).2.1),
      replBB_cons_ne_rb (by decide),
      replBB_append_of_ne_rb (fun c hc => (n4 c hc).2.1)]
    rfl
  have e2 : (replBB b.data).filter (fun c => !(c == '[')) =
      s1 ++ (',' :: (s2 ++ (',' :: (s3 ++ (',' :: (s4 ++ [']'])))))) := by
    rw [e1]
    simp only [List.filter_cons, List.filter_append]
    rw [filter_ne_id (fun c hc => (n1 c hc).1), filter_ne_id (fun c hc => (n2 c hc).1),
      filter_ne_id (fun c hc => (n3 c hc).1), filter_ne_id (fun c hc => (n4 c hc).1)]
    simp
  have e3 : ((replBB b.data).filter (fun c => !(c == '['))).filter (fun c => !(c == ']')) =
      s1 ++ (',' :: (s2 ++ (',' :: (s3 ++ (',' :: s4))))) := by
    rw [e2]
    simp only [List.filter_cons, List.filter_append]
    rw [filter_ne_id (fun c hc => (n1 c hc).2.1), filter_ne_id (fun c hc => (n2 c hc).2.1),
      filter_ne_id (fun c hc => (n3 c hc).2.1), filter_ne_id (fun c hc => (n4 c hc).2.1)]
    simp
  have e4 : splitOnCh ','
      (((replBB b.data).filter (fun c => !(c == '['))).filter (fun c => !(c == ']'))) =
      [s1, s2, s3, s4] := by
    rw [e3, splitOnCh_append (fun c hc => (n1 c hc).2.2),
      splitOnCh_append (fun c hc => (n2 c hc).2.2),
      splitOnCh_append (fun c hc => (n3 c hc).2.2),
      splitOnCh_no_sep (fun c hc => (n4 c hc).2.2)]
  unfold parseBounds
  rw [e4]
  simp [intTokens, h1, h2, h3, h4]

/-- C3: for every qualifying node whose bounds string is well-formed as
two bracketed integer-token pairs, the extracted element's center is the
pair of floor-divided midpoints, exactly as Python's integer division
computes them. -/
theorem extracted_center_midpoint (n : XNode) (b : String)
    (s1 s2 s3 s4 : List Char) (x1 y1 x2 y2 : Int)
    (hq : qualifies n = true)
    (hb : getAttr n "bounds" = some b)
    (hshape : b.data =
      '[' :: (s1 ++ (',' :: (s2 ++ (']' :: ('[' :: (s3 ++ (',' :: (s4 ++ [']'])))))))))
    (h1 : pyInt? s1 = some x1) (h2 : pyInt? s2 = some y1)
    (h3 : pyInt? s3 = some x2) (h4 : pyInt? s4 = some y2) :
    processNode n = some (buildElement n b x1 y1 x2 y2) ∧
    (buildElement n b x1 y1 x2 y2).center = ((x1 + x2).fdiv 2, (y1 + y2).fdiv 2) := by
  have hpb := parseBounds_shape hshape h1 h2 h3 h4
  have hdata : b.data ≠ [] := by rw [hshape]; simp
  have hbne : b ≠ "" := fun hb0 => hdata (by rw [hb0])
  have hne : (b == "") = false := beq_eq_false_iff_ne.mpr hbne
  exact ⟨processNode_eq_some.mpr ⟨hq, b, x1, y1, x2, y2, hb, hne, hpb, rfl⟩, rfl⟩

/-- C3 witness: a concrete node with bounds string recovering the corner
integers 10, 20, 31, 40 and hence center (20, 30). -/
theorem extracted_center_midpoint_witness :
    processNode (XNode.mk [("text", "go"), ("bounds", "[10,20][31,40]")] []) =
      some (buildElement (XNode.mk [("text", "go"), ("bounds", "[10,20][31,40]")] [])
        "[10,20][31,40]" 10 20 31 40) ∧
    (buildElement (XNode.mk [("text", "go"), ("bounds", "[10,20][31,40]")] [])
        "[10,20][31,40]" 10 20 31 40).center =
      ((10 + 31 : Int).fdiv 2, (20 + 40 : Int).fdiv 2) :=
  extracted_center_midpoint _ _ ("10".data) ("20".data) ("31".data) ("40".data)
    10 20 31 40 (by decide) (by decide) (by decide)
    (by decide) (by decide) (by decide) (by decide)

/-- C5: a qualifying node whose bounds are missing, falsy, or unparsable is
skipped with no output, and removing it from the traversed node sequence
leaves the rest of the extraction unchanged: one node's failure never aborts
the pass, and every other node's element still appears. -/
theorem broken_bounds_skip (n : XNode) (hq : qualifies n = true)
    (hb : boundsBroken n = true) :
    processNode n = none ∧
    ∀ pre post : List XNode, extractLoop (pre ++ n :: post) = extractLoop (pre ++ post) := by
  have hnone : processNode n = none := by
    cases h : processNode n with
    | none => rfl
    | some e =>
      obtain ⟨-, b, x1, y1, x2, y2, hb', hbe, hpb, -⟩ := processNode_eq_some.mp h
      unfold boundsBroken at hb
      rw [hb'] at hb
      simp [hbe, hpb] at hb
  refine ⟨hnone, fun pre post => ?_⟩
  rw [extractLoop_eq_filterMap, extractLoop_eq_filterMap]
  simp [List.filterMap_append, List.filterMap_cons, hnone]

/-- C5 witness: a node with text but a three-token bounds string is skipped,
and its neighbors are extracted exactly as if it were absent. -/
theorem broken_bounds_skip_witness :
    processNode (XNode.mk [("text", "x"), ("bounds", "[1,2][3]")] []) = none ∧
    extractLoop ([XNode.mk [("text", "a"), ("bounds", "[0,0][2,2]")] []] ++
        XNode.mk [("text", "x"), ("bounds", "[1,2][3]")] [] ::
        [XNode.mk [("clickable", "true"), ("bounds", "[4,4][6,6]")] []]) =
      extractLoop ([XNode.mk [("text", "a"), ("bounds", "[0,0][2,2]")] []] ++
        [XNode.mk [("clickable", "true"), ("bounds", "[4,4][6,6]")] []]) :=
  ⟨(broken_bounds_skip _ (by decide) (by decide)).1,
   (broken_bounds_skip _ (by decide) (by decide)).2 _ _⟩

/-- C6: on any document the tree parser rejects, the extractor returns the
empty list and signals the non-fatal parse warning; the exception is caught,
never reaching the caller. -/
theorem malformed_document_empty (doc : String) (h : ET_fromstring doc = none) :
    get_interactive_elements doc = [] ∧ sanitizer_parse_warning doc = true := by
  constructor
  · unfold get_interactive_elements
    rw [h]
  · unfold sanitizer_parse_warning
    rw [h]
    rfl

/-- C6 witness: a string that is not markup at all yields the empty list and
the warning. -/
theorem malformed_document_empty_witness :
    get_interactive_elements "definitely not xml" = [] ∧
    sanitizer_parse_warning "definitely not xml" = true :=
  malformed_document_empty "definitely not xml" (by rfl)

/-- Membership in the concatenated sibling pre-orders is membership in some
sibling subtree. -/
theorem mem_nodePreorderList {n : XNode} {ns : List XNode} :
    n ∈ nodePreorderList ns ↔ ∃ c ∈ ns, n ∈ nodePreorder c := by
  induction ns with
  | nil => simp [nodePreorderList]
  | cons c cs ih => simp [nodePreorderList, List.mem_append, ih]

/-- Every node listed by the pre-order sequence lies in the tree. -/
theorem inTree_of_mem_nodePreorder : ∀ (r n : XNode), n ∈ nodePreorder r → InTree n r
  | .mk a cs, n, h => by
    simp only [nodePreorder] at h
    rcases List.mem_cons.mp h with h1 | h2
    · rw [h1]; exact InTree.refl _
    · rcases mem_nodePreorderList.mp h2 with ⟨c, hc, hm⟩
      exact InTree.child (r := XNode.mk a cs) hc (inTree_of_mem_nodePreorder c n hm)
termination_by r => sizeOf r
decreasing_by
  have := List.sizeOf_lt_of_mem hc
  simp only [XNode.mk.sizeOf_spec]
  omega

/-- Unfolded form of the pre-order sequence: the node, then the sibling
pre-orders of its children. -/
theorem nodePreorder_eq (r : XNode) :
    nodePreorder r = r :: nodePreorderList r.children := by
  cases r with
  | mk a cs => rfl

/-- Every node of the tree is listed by the pre-order sequence. -/
theorem mem_nodePreorder_of_inTree {n r : XNode} (h : InTree n r) :
    n ∈ nodePreorder r := by
  induction h with
  | refl =>
    rw [nodePreorder_eq]
    exact List.mem_cons_self _ _
  | child hc _ ih =>
    rw [nodePreorder_eq]
    exact List.mem_cons_of_mem _ (mem_nodePreorderList.mpr ⟨_, hc, ih⟩)

/-- The pre-order sequence lists exactly the nodes of the tree. -/
theorem mem_nodePreorder_iff_inTree (r n : XNode) :
    n ∈ nodePreorder r ↔ InTree n r :=
  ⟨inTree_of_mem_nodePreorder r n, mem_nodePreorder_of_inTree⟩

/-- C7: on every document that parses, the extractor's output is the
`filterMap` of the per-node step over the depth-first pre-order sequence of
the tree, so output order is pre-order position; and that sequence visits
exactly the nodes of the tree, inner nodes included, not only leaves. -/
theorem preorder_traversal_contract (doc : String) (root : XNode)
    (h : ET_fromstring doc = some root) :
    get_interactive_elements doc = (nodePreorder root).filterMap processNode ∧
    ∀ n : XNode, n ∈ nodePreorder root ↔ InTree n root := by
  constructor
  · have hge : get_interactive_elements doc = extractLoop (nodePreorder root) := by
      unfold get_interactive_elements
      rw [h]
    rw [hge, extractLoop_eq_filterMap]
  · exact fun n => mem_nodePreorder_iff_inTree root n

/-- C7 witness: a two-level document whose output equals the filterMap over
the explicit pre-order node sequence of its parsed tree. -/
theorem preorder_traversal_contract_witness :
    get_interactive_elements
      "<hierarchy><node text=\"a\" bounds=\"[0,0][2,2]\"><node clickable=\"true\" bounds=\"[0,0][4,4]\"/></node></hierarchy>" =
    (nodePreorder (XNode.mk []
      [XNode.mk [("text", "a"), ("bounds", "[0,0][2,2]")]
        [XNode.mk [("clickable", "true"), ("bounds", "[0,0][4,4]")] []]])).filterMap
      processNode :=
  (preorder_traversal_contract _ _ (by rfl)).1

/-! ## Claims about the action-history formatter -/

/-- String concatenation concatenates the underlying character lists. -/
theorem str_data_append (s t : String) : (s ++ t).data = s.data ++ t.data := rfl

/-- The formatter's loop renders the entry at each index with that index,
offset by the starting counter. -/
theorem historyLines_get? (l : List HistEntry) :
    ∀ (i j : Nat), (historyLines i l).get? j = (l.get? j).map (fun a => historyLine (i + j) a) := by
  induction l with
  | nil => intro i j; simp [historyLines]
  | cons a rest ih =>
    intro i j
    cases j with
    | zero => simp [historyLines]
    | succ j =>
      simp only [historyLines, List.get?]
      rw [ih (i + 1) j]
      have : i + 1 + j = i + (j + 1) := by omega
      rw [this]

/-- The line of a type entry contains the quoted typed text verbatim. -/
theorem historyLine_type_contains (i : Nat) (a : HistEntry) (t : String)
    (ha : a.action = some "type") (ht : a.text = some t) :
    ("typed \"" ++ t ++ "\"").data <:+: (historyLine i a).data := by
  have hline : historyLine i a =
      ("Step " ++ toString (i + 1) ++ ": ") ++ ("typed \"" ++ t ++ "\"") ++
        (" - " ++ a.reason.getD "N/A") := by
    unfold historyLine
    rw [ha, ht]
    simp only [Option.getD_some]
    rw [if_pos (by rfl)]
    simp only [str_data_append, String.ext_iff]
    simp [str_data_append]
  rw [hline]
  exact ⟨("Step " ++ toString (i + 1) ++ ": ").data, (" - " ++ a.reason.getD "N/A").data,
    by simp [str_data_append]⟩

/-- C8 (amended): the formatter is a pure total function; the empty history
yields the empty string with no header; a non-empty history yields the header
plus one newline-joined line per entry, 1-indexed in chronological order; a
type entry's line contains the quoted typed text verbatim; missing text
renders empty, while a missing action renders the placeholder "unknown" and
a missing reason the placeholder "N/A". -/
theorem format_action_history_spec :
    format_action_history [] = "" ∧
    (∀ h : List HistEntry, h ≠ [] →
      format_action_history h =
        "\n\nPREVIOUS_ACTIONS:\n" ++ String.intercalate "\n" (historyLines 0 h)) ∧
    (∀ (h : List HistEntry) (j : Nat),
      (historyLines 0 h).get? j = (h.get? j).map (fun a => historyLine j a)) ∧
    (∀ (i : Nat) (a : HistEntry) (t : String), a.action = some "type" → a.text = some t →
      ("typed \"" ++ t ++ "\"").data <:+: (historyLine i a).data) ∧
    (∀ (i : Nat) (a : HistEntry), a.action = some "type" → a.text = none →
      historyLine i a =
        "Step " ++ toString (i + 1) ++ ": typed \"" ++ "" ++ "\" - " ++ a.reason.getD "N/A") ∧
    (∀ (i : Nat) (a : HistEntry), a.action = none → a.reason = none →
      historyLine i a =
        "Step " ++ toString (i + 1) ++ ": " ++ "unknown" ++ " - " ++ "N/A") := by
  refine ⟨rfl, ?_, ?_, ?_, ?_, ?_⟩
  · intro h hne
    unfold format_action_history
    rw [if_neg (by simpa [List.isEmpty_iff] using hne)]
  · intro h j
    have := historyLines_get? h 0 j
    simpa using this
  · exact historyLine_type_contains
  · intro i a ha ht
    unfold historyLine
    rw [ha, ht]
    simp only [Option.getD_some, Option.getD_none]
    rw [if_pos (by rfl)]
  · intro i a ha hr
    unfold historyLine
    rw [ha, hr]
    simp only [Option.getD_none]
    rw [if_neg (by decide), if_neg (by decide)]

/-- C8 counterexample: a type entry with no reason key renders the
placeholder "N/A", not an empty value, so the claim that missing fields
render as empty values fails on this input. -/
theorem format_action_history_counterexample :
    format_action_history [⟨some "type", some "hi", none, none⟩] =
      "\n\nPREVIOUS_ACTIONS:\nStep 1: typed \"hi\" - N/A" ∧
    format_action_history [⟨some "type", some "hi", none, none⟩] ≠
      "\n\nPREVIOUS_ACTIONS:\nStep 1: typed \"hi\" - " ∧
    format_action_history [⟨none, none, none, none⟩] =
      "\n\nPREVIOUS_ACTIONS:\nStep 1: unknown - N/A" := by
  refine ⟨by decide, by decide, by decide⟩

/-- C8 witness: the header equation and the quoted-text containment at a
concrete one-entry history. -/
theorem format_action_history_spec_witness :
    format_action_history [⟨some "type", some "hi", some "r", none⟩] =
      "\n\nPREVIOUS_ACTIONS:\n" ++ String.intercalate "\n"
        (historyLines 0 [⟨some "type", some "hi", some "r", none⟩]) ∧
    ("typed \"" ++ "hi" ++ "\"").data <:+:
      (historyLine 0 ⟨some "type", some "hi", some "r", none⟩).data :=
  ⟨format_action_history_spec.2.1 _ (by decide),
   format_action_history_spec.2.2.2.1 0 _ "hi" rfl rfl⟩

/-! ## Claims about the decision-protocol response parsing -/

/-- Invariant of the brace scanner: any successful result is a single-level
brace group occurring inside the scanned text (prefixed, when a group is
open, by the pending opening brace and pending body). -/
theorem fbAux_spec (l : List Char) :
    (∀ sub, fbAux l none = some sub →
      (∃ mid, sub = '{' :: (mid ++ ['}']) ∧ ∀ c ∈ mid, c ≠ '{' ∧ c ≠ '}') ∧
      sub <:+: l) ∧
    (∀ (m sub : List Char), (∀ c ∈ m, c ≠ '{' ∧ c ≠ '}') →
      fbAux l (some (m ++ ['{'])) = some sub →
      (∃ mid, sub = '{' :: (mid ++ ['}']) ∧ ∀ c ∈ mid, c ≠ '{' ∧ c ≠ '}') ∧
      sub <:+: ('{' :: (m.reverse ++ l))) := by
  induction l with
  | nil =>
    constructor
    · intro sub h; simp [fbAux] at h
    · intro m sub _ h; simp [fbAux] at h
  | cons c rest ih =>
    obtain ⟨ihP, ihQ⟩ := ih
    constructor
    · intro sub h
      by_cases hc1 : c = '{'
      · subst hc1
        simp only [fbAux, if_pos rfl] at h
        have hres := ihQ [] sub (by simp) (by simpa using h)
        refine ⟨hres.1, ?_⟩
        simpa using hres.2
      · by_cases hc2 : c = '}'
        · subst hc2
          simp only [fbAux, if_neg (show ¬(('}' : Char) = '{') by decide), if_pos rfl] at h
          have hres := ihP sub h
          obtain ⟨s, t, hst⟩ := hres.2
          exact ⟨hres.1, '}' :: s, t, by rw [← hst]; rfl⟩
        · simp only [fbAux, if_neg hc1, if_neg hc2] at h
          have hres := ihP sub h
          obtain ⟨s, t, hst⟩ := hres.2
          exact ⟨hres.1, c :: s, t, by rw [← hst]; rfl⟩
    · intro m sub hm h
      by_cases hc1 : c = '{'
      · subst hc1
        simp only [fbAux, if_pos rfl] at h
        have hres := ihQ [] sub (by simp) (by simpa using h)
        refine ⟨hres.1, ?_⟩
        have h2 : sub <:+: ('{' :: rest) := by simpa using hres.2
        obtain ⟨s, t, hst⟩ := h2
        refine ⟨'{' :: (m.reverse ++ s), t, ?_⟩
        rw [← hst]
        simp
      · by_cases hc2 : c = '}'
        · subst hc2
          simp only [fbAux, if_neg (show ¬(('}' : Char) = '{') by decide), if_pos rfl] at h
          have hsub : sub = '{' :: (m.reverse ++ ['}']) := by
            rw [← Option.some.inj h, List.reverse_append]
            rfl
          refine ⟨⟨m.reverse, hsub, fun d hd => hm d (List.mem_reverse.mp hd)⟩, ?_⟩
          refine ⟨[], rest, ?_⟩
          rw [hsub]
          simp
        · simp only [fbAux, if_neg hc1, if_neg hc2] at h
          have harg : fbAux rest (some ((c :: m) ++ ['{'])) = some sub := by
            simpa using h
          have hres := ihQ (c :: m) sub
            (fun d hd => by
              rcases List.mem_cons.mp hd with rfl | hdm
              · exact ⟨hc1, hc2⟩
              · exact hm d hdm) harg
          refine ⟨hres.1, ?_⟩
          have h2 := hres.2
          obtain ⟨s, t, hst⟩ := h2
          refine ⟨s, t, ?_⟩
          rw [hst]
          simp

/-- The first-match scanner returns a single-level brace group that occurs
in the text. -/
theorem firstBrace_spec {l sub : List Char} (h : firstBrace l = some sub) :
    (∃ mid, sub = '{' :: (mid ++ ['}']) ∧ ∀ c ∈ mid, c ≠ '{' ∧ c ≠ '}') ∧
    sub <:+: l :=
  (fbAux_spec l).1 sub h

/-- C1 (amended): the Bedrock response parsing attempts a direct parse first
and returns its value; on failure it scans for the first single-level brace
group, which when found is itself a brace-delimited, non-nested substring of
the text, and returns its parse result — but if that substring is not valid
JSON the error escapes uncaught (the function raises); only when no brace
group exists at all does it return exactly the wait fallback and log a
truncated preview of at most 200 characters. -/
theorem parse_json_response_spec (text : String) :
    (∀ v, json_loads text = some v → parse_json_response text = (.ok v, none)) ∧
    (json_loads text = none → ∀ sub : List Char, firstBrace text.data = some sub →
      ((∃ mid, sub = '{' :: (mid ++ ['}']) ∧ ∀ c ∈ mid, c ≠ '{' ∧ c ≠ '}') ∧
        sub <:+: text.data) ∧
      (∀ v, json_loads ⟨sub⟩ = some v → parse_json_response text = (.ok v, none)) ∧
      (json_loads ⟨sub⟩ = none → parse_json_response text = (.error (), none))) ∧
    (json_loads text = none → firstBrace text.data = none →
      parse_json_response text =
        (.ok waitFallback, some ("⚠️ Could not parse LLM response: " ++ pySlice200 text)) ∧
      (pySlice200 text).length ≤ 200) := by
  refine ⟨?_, ?_, ?_⟩
  · intro v hv
    simp only [parse_json_response, hv]
  · intro hn sub hf
    refine ⟨firstBrace_spec hf, ?_, ?_⟩
    · intro v hv
      simp only [parse_json_response, hn, hf, hv]
    · intro hv
      simp only [parse_json_response, hn, hf, hv]
  · intro hn hf
    constructor
    · simp only [parse_json_response, hn, hf]
    · have hlen : (pySlice200 text).length = (text.data.take 200).length := rfl
      rw [hlen, List.length_take]
      exact min_le_left _ _

/-- C1 counterexample: a response whose only brace group is not valid JSON
makes the parse raise instead of returning the wait fallback, so the claimed
totality fails at this input. -/
theorem parse_json_response_counterexample :
    parse_json_response "Sure \x7btap yes\x7d done" = (Except.error (), none) ∧
    (Except.error () : Except Unit JValue) ≠ Except.ok waitFallback := by
  exact ⟨rfl, fun h => Except.noConfusion h⟩

/-- C1 witness: the spec's own example, a reply with leading prose around a
valid object, parses to the embedded object. -/
theorem parse_json_response_spec_witness :
    parse_json_response "here you go \x7b\"action\":\"tap\",\"coordinates\":[1,2]\x7d" =
      (Except.ok (JValue.jobj [("action", JValue.jstr "tap"),
        ("coordinates", JValue.jarr [JValue.jnum 1, JValue.jnum 2])]), none) :=
  (((parse_json_response_spec
    "here you go \x7b\"action\":\"tap\",\"coordinates\":[1,2]\x7d").2.1 rfl
    ("\x7b\"action\":\"tap\",\"coordinates\":[1,2]\x7d".data) rfl).2.1) _ rfl

/-! ## Claims about the action dispatcher -/

/-- For a one-character pattern, the left-to-right replacement is exactly the
character-wise substitution. -/
theorem replaceL_single (p : Char) (repl : List Char) :
    ∀ (fuel : Nat) (l : List Char), l.length ≤ fuel →
      replaceL p [] repl fuel l = l.flatMap (fun c => if c = p then repl else [c]) := by
  intro fuel
  induction fuel with
  | zero =>
    intro l hl
    cases l with
    | nil => rfl
    | cons c rest => simp at hl
  | succ f ih =>
    intro l hl
    cases l with
    | nil => rfl
    | cons c rest =>
      simp only [replaceL, List.isPrefixOf, List.length_nil, List.drop_zero, Bool.and_true]
      by_cases hc : c = p
      · rw [if_pos (by simp [hc]), ih rest (by simpa using hl)]
        simp [hc]
      · rw [if_neg (by simp [Ne.symm hc]), ih rest (by simpa using hl)]
        simp [hc]

/-- C9: for every type action carrying text, the dispatcher issues exactly
one text-input command whose payload is the text with each literal space
replaced by the adb placeholder token. -/
theorem type_space_escaping (a : ActionDict) (t : String)
    (ha : a.action = some "type") (ht : a.text = some t) :
    execute_action a = .adb ["shell", "input", "text", pyReplace t " " "%s"] ∧
    (pyReplace t " " "%s").data =
      t.data.flatMap (fun c => if c = ' ' then "%s".data else [c]) := by
  constructor
  · simp only [execute_action, ha]
    rw [if_neg (by decide), if_pos (by decide)]
    simp [execute_type, ht]
  · show (replaceL ' ' [] "%s".data t.data.length t.data) = _
    exact replaceL_single ' ' "%s".data t.data.length t.data le_rfl

/-- C9 witness: the action typing the text with one space is dispatched with
payload using the placeholder. -/
theorem type_space_escaping_witness :
    execute_action ⟨some "type", none, some "a b", none, none⟩ =
      Effect.adb ["shell", "input", "text", "a%sb"] := by
  rw [(type_space_escaping ⟨some "type", none, some "a b", none, none⟩ "a b" rfl rfl).1]
  rfl

/-- C10: a tap action with no coordinates key does not fail: the unpack
falls back to the default pair and the dispatcher issues a tap at (0, 0). -/
theorem tap_missing_coordinates_default (a : ActionDict)
    (ha : a.action = some "tap") (hc : a.coordinates = none) :
    execute_action a = .adb ["shell", "input", "tap", "0", "0"] := by
  simp only [execute_action, ha]
  rw [if_pos (by decide)]
  simp [execute_tap, hc]
  rfl

/-- C10 witness: the bare tap action dispatches a tap at the origin. -/
theorem tap_missing_coordinates_default_witness :
    execute_action ⟨some "tap", none, none, none, none⟩ =
      Effect.adb ["shell", "input", "tap", "0", "0"] :=
  tap_missing_coordinates_default ⟨some "tap", none, none, none, none⟩ rfl rfl
